import Mathlib

/-!
Shallow embedding of the aggregation / selection logic of the ransomware
dashboard (src/website/app/page.tsx, src/website/utils/translation.js).

JavaScript values relevant to the aggregation are modelled as follows:
* an element of the `entities` array is an `Entity`: `nullish` (null or
  undefined), `falsyPrim` (a falsy non-nullish primitive: 0, "", false, NaN),
  `truthyPrim` (a truthy non-object primitive), or `obj d` (an object with
  the record fields used by the code, each `Option`-valued for absence);
* a JS object used as a dictionary is a `JsMap`: an insertion-ordered
  association list (all keys occurring here are country codes, city names,
  industry names, range labels and similar non-array-index strings, for
  which JS property enumeration order is insertion order);
* `a || b` on an optional string is `jsOr` (empty string is falsy);
* a thrown TypeError (from accessing a property of null/undefined) is
  `Except.error ()`.
The translation function `t` is fixed to the English table of
translation.js (the default language): `t "unknown" = "Unknown"`,
`t "global" = "Global"`.
-/

namespace RansomTracker

/-- English translation table entry for the key `unknown` (translation.js,
default language `en`). -/
def tUnknown : String := "Unknown"

/-- English translation table entry for the key `global` (translation.js,
default language `en`). -/
def tGlobal : String := "Global"

/-- JS `v || d` for an optional string `v`: absent or empty (falsy) falls
back to `d`. -/
def jsOr (v : Option String) (d : String) : String :=
  match v with
  | none => d
  | some s => if s = "" then d else s

/-- JS `s.toUpperCase()`, modelled character by character (the country
codes this is applied to are ASCII). -/
def jsToUpper (s : String) : String := ⟨s.data.map Char.toUpper⟩

/-- The `geography` sub-object of an entity (page.tsx data model). -/
structure Geography where
  country_code : Option String
  country : Option String
  city : Option String
deriving DecidableEq, Repr

/-- The `organization.size` sub-object of an entity. -/
structure OrgSize where
  employees_range : Option String
  revenue_range : Option String
deriving DecidableEq, Repr

/-- The `organization` sub-object of an entity. -/
structure Organization where
  industry : Option String
  size : Option OrgSize
  orgstatus : Option String
deriving DecidableEq, Repr

/-- The record fields of an entity object that the aggregation reads. -/
structure EntityData where
  geography : Option Geography
  organization : Option Organization
  ransomware_group : Option String
deriving DecidableEq, Repr

/-- One element of the `entities` array, classified by the JS value shapes
the aggregation code distinguishes. -/
inductive Entity where
  | nullish : Entity
  | falsyPrim : Entity
  | truthyPrim : Entity
  | obj : EntityData → Entity
deriving DecidableEq, Repr

/-- JS truthiness of an entity value: the `if (!item) return;` guard in
`processData` skips exactly the falsy elements. -/
def isTruthy : Entity → Bool
  | .nullish => false
  | .falsyPrim => false
  | .truthyPrim => true
  | .obj _ => true

/-- `item.geography` (property access on a non-nullish value; primitives
yield undefined). -/
def entityGeography : Entity → Option Geography
  | .obj d => d.geography
  | _ => none

/-- `item.organization`. -/
def entityOrganization : Entity → Option Organization
  | .obj d => d.organization
  | _ => none

/-- `item.ransomware_group`. -/
def entityRansomGroup : Entity → Option String
  | .obj d => d.ransomware_group
  | _ => none

/-- The normalized country code of an entity (page.tsx lines 315-319):
`item.geography && item.geography.country_code` truthy means the grouping
key is `country_code.toUpperCase()`, otherwise the sentinel `"UNK"`. -/
def entityCountryCode (e : Entity) : String :=
  match entityGeography e with
  | some g =>
    match g.country_code with
    | some s => if s = "" then "UNK" else jsToUpper s
    | none => "UNK"
  | none => "UNK"

/-- The display name recorded when a country bucket is created
(page.tsx lines 322-323):
`(item.geography && item.geography.country) || (cc === "UNK" ? t("global") : cc)`. -/
def entityCountryName (e : Entity) : String :=
  jsOr ((entityGeography e).bind (·.country))
    (if entityCountryCode e = "UNK" then tGlobal else entityCountryCode e)

/-- `item.geography?.city || t("unknown")` (page.tsx line 337). -/
def entityCity (e : Entity) : String :=
  jsOr ((entityGeography e).bind (·.city)) tUnknown

/-- `item.organization?.industry || t("unknown")` (page.tsx line 355). -/
def entityIndustry (e : Entity) : String :=
  jsOr ((entityOrganization e).bind (·.industry)) tUnknown

/-- `item.ransomware_group || t("unknown")` (page.tsx line 362). -/
def entityGroup (e : Entity) : String :=
  jsOr (entityRansomGroup e) tUnknown

/-- `entity.organization?.size?.employees_range` (page.tsx line 239). -/
def entityEmployeesRange (e : Entity) : Option String :=
  ((entityOrganization e).bind (·.size)).bind (·.employees_range)

/-- `entity.organization?.size?.revenue_range` (page.tsx line 247). -/
def entityRevenueRange (e : Entity) : Option String :=
  ((entityOrganization e).bind (·.size)).bind (·.revenue_range)

/-- `entity.organization?.status` (page.tsx line 255). -/
def entityStatus (e : Entity) : Option String :=
  (entityOrganization e).bind (·.orgstatus)

/-! ### JS objects as insertion-ordered association lists -/

/-- A JS object used as a string-keyed dictionary, in insertion order. -/
abbrev JsMap (α : Type) := List (String × α)

namespace JsMap

/-- Property read `m[k]` (undefined becomes `none`). -/
def get? : JsMap α → String → Option α
  | [], _ => none
  | p :: ps, k => if p.1 = k then some p.2 else get? ps k

/-- `m.hasOwnProperty(k)`. -/
def hasKey (m : JsMap α) (k : String) : Bool := (m.get? k).isSome

/-- Property write `m[k] = v`: replace in place when the key exists,
otherwise append (JS object keys are unique and enumerate in insertion
order for the string keys occurring here). -/
def set : JsMap α → String → α → JsMap α
  | [], k, v => [(k, v)]
  | p :: ps, k, v => if p.1 = k then (k, v) :: ps else p :: set ps k v

/-- Update the value stored at an existing key in place. -/
def modify : JsMap α → String → (α → α) → JsMap α
  | [], _, _ => []
  | p :: ps, k, f => if p.1 = k then (p.1, f p.2) :: ps else p :: modify ps k f

/-- The JS idiom `m[k] = (m[k] || 0) + 1`. -/
def incr (m : JsMap Nat) (k : String) : JsMap Nat :=
  m.set k (((m.get? k).getD 0) + 1)

/-- The key list, in enumeration (insertion) order. -/
def keys (m : JsMap α) : List String := m.map (·.1)

end JsMap

/-! ### The stable descending sorts used by the formatters

`Array.prototype.sort(cmp)` is specified (ES2019) to be a stable sort: the
output is the unique permutation of the input that is sorted with respect
to the comparator and keeps the input order of comparator-ties. The model
realises it by inserting each element, in input order, after every already
placed element `y` with `cmp y x <= 0`. -/

/-- Insert `x` after the longest prefix of elements `y` with `keep y`. -/
def stableInsert (keep : α → Bool) (x : α) : List α → List α
  | [] => [x]
  | y :: ys => if keep y then y :: stableInsert keep x ys else x :: y :: ys

/-- Stable sort by a JS comparator `cmp` (negative: first argument first). -/
def jsStableSortBy (cmp : α → α → Int) (l : List α) : List α :=
  l.foldl (fun acc x => stableInsert (fun y => decide (cmp y x ≤ 0)) x acc) []

/-- A `{name, value}` chart datum. -/
structure Entry where
  name : String
  value : Nat
deriving DecidableEq, Repr

/-- A `{name, value, order}` datum of the employee/revenue formatters. -/
structure RangeEntry where
  name : String
  value : Nat
  order : Int
deriving DecidableEq, Repr

/-- A `{city, count, countryCode, countryName}` datum of `globalCities`. -/
structure CityEntry where
  city : String
  count : Nat
  countryCode : String
  countryName : String
deriving DecidableEq, Repr

/-- The comparator `(a, b) => b.value - a.value`. -/
def cmpValueDesc (a b : Entry) : Int := (b.value : Int) - (a.value : Int)

/-- The comparator `(a, b) => b.count - a.count` of the city formatter. -/
def cmpCityDesc (a b : CityEntry) : Int := (b.count : Int) - (a.count : Int)

/-- The employee/revenue comparator (page.tsx lines 267-271): `"Unknown"`
sorts last, all other buckets by their canonical table position. -/
def cmpRangeOrder (a b : RangeEntry) : Int :=
  if a.name = "Unknown" then 1
  else if b.name = "Unknown" then -1
  else a.order - b.order

/-- JS `Array.prototype.indexOf`: index of the first occurrence, −1 when
absent. -/
def jsIndexOf : List String → String → Int
  | [], _ => -1
  | x :: xs, s =>
    if x = s then 0
    else if jsIndexOf xs s < 0 then -1 else jsIndexOf xs s + 1

/-! ### processOrgStats (page.tsx lines 221-300) -/

/-- The canonical employee range table (page.tsx lines 47-55). -/
def employeeRangeOrder : List String :=
  ["1-9", "10-49", "50-99", "100-499", "500-999", "1000-4999", "5000+"]

/-- The canonical revenue range table (page.tsx lines 58-67). -/
def revenueRangeOrder : List String :=
  ["<$1M", "$1M-$5M", "$5M-$10M", "$10M-$50M", "$50M-$100M", "$100M-$500M",
   "$500M-$1B", ">$1B"]

/-- The three counting dictionaries of `processOrgStats`. -/
structure OrgAcc where
  employeeRanges : JsMap Nat
  revenueRanges : JsMap Nat
  orgStatuses : JsMap Nat
deriving DecidableEq, Repr

/-- The dictionaries before the loop: every canonical range pre-seeded
with 0, statuses empty. -/
def initOrgAcc : OrgAcc :=
  { employeeRanges := employeeRangeOrder.map (fun r => (r, 0))
    revenueRanges := revenueRangeOrder.map (fun r => (r, 0))
    orgStatuses := [] }

/-- One range update of `processOrgStats` (page.tsx lines 240-244 and
248-252): count under the key when it is already present, otherwise count
under `"Unknown"` only when the value is not itself `"Unknown"`. -/
def bucketRange (m : JsMap Nat) (v : String) : JsMap Nat :=
  if m.hasKey v then m.incr v
  else if v ≠ "Unknown" then m.incr "Unknown"
  else m

/-- The body of the `entities.forEach` loop of `processOrgStats`. Reading
`entity.organization` of a null/undefined element throws a TypeError
(there is no truthiness guard in this function). -/
def orgStep (acc : OrgAcc) (e : Entity) : Except Unit OrgAcc :=
  match e with
  | .nullish => .error ()
  | _ =>
    let er := jsOr (entityEmployeesRange e) "Unknown"
    let rr := jsOr (entityRevenueRange e) "Unknown"
    let st := jsOr (entityStatus e) "Unknown"
    .ok
      { employeeRanges := bucketRange acc.employeeRanges er
        revenueRanges := bucketRange acc.revenueRanges rr
        orgStatuses := acc.orgStatuses.incr st }

/-- The result record of `processOrgStats`. -/
structure OrgStats where
  employeeStats : List RangeEntry
  revenueStats : List RangeEntry
  statusStats : List Entry
deriving DecidableEq, Repr

/-- The employee/revenue formatter (page.tsx lines 260-285): keep non-zero
buckets in key enumeration order, attach the canonical table index as
`order`, and sort with the `"Unknown"`-last comparator. -/
def formatRanges (table : List String) (m : JsMap Nat) : List RangeEntry :=
  jsStableSortBy cmpRangeOrder
    ((m.filter (fun p => decide (0 < p.2))).map
      (fun p => ⟨p.1, p.2, jsIndexOf table p.1⟩))

/-- The status formatter (page.tsx lines 288-293): all buckets, sorted by
count descending. -/
def formatStatuses (m : JsMap Nat) : List Entry :=
  jsStableSortBy cmpValueDesc (m.map (fun p => ⟨p.1, p.2⟩))

/-- `processOrgStats` (page.tsx lines 221-300): run the counting loop
(which throws on a null/undefined element), then format. -/
def processOrgStats (es : List Entity) : Except Unit OrgStats :=
  (es.foldlM orgStep initOrgAcc).map fun acc =>
    { employeeStats := formatRanges employeeRangeOrder acc.employeeRanges
      revenueStats := formatRanges revenueRangeOrder acc.revenueRanges
      statusStats := formatStatuses acc.orgStatuses }

/-! ### processData, first pass (page.tsx lines 302-367) -/

/-- One value of the `countries` dictionary. -/
structure CountryAgg where
  count : Nat
  cities : JsMap Nat
  entities : List Entity
  name : String
deriving DecidableEq, Repr

/-- One value of the `allCities` dictionary. -/
structure CityAgg where
  count : Nat
  countryCode : String
  countryName : String
deriving DecidableEq, Repr

/-- The four dictionaries built by the `entities.forEach` pass of
`processData`. -/
structure Pass1 where
  countries : JsMap CountryAgg
  industries : JsMap Nat
  groups : JsMap Nat
  allCities : JsMap CityAgg
deriving DecidableEq, Repr

/-- The body of the `entities.forEach` loop of `processData` (page.tsx
lines 310-367), in source order: skip falsy items; create/count the
country bucket and push the entity; count the per-country city; create
(attributing the current country code and the country bucket's recorded
name) and count the global city; count the industry; count the group. -/
def pass1Step (s : Pass1) (item : Entity) : Pass1 :=
  if isTruthy item then
    let cc := entityCountryCode item
    let countries1 :=
      if (s.countries.get? cc).isSome then s.countries
      else s.countries.set cc ⟨0, [], [], entityCountryName item⟩
    let countries2 := countries1.modify cc fun a =>
      { a with count := a.count + 1, entities := a.entities ++ [item] }
    let city := entityCity item
    let countries3 := countries2.modify cc fun a =>
      { a with cities := a.cities.incr city }
    let cname := ((countries3.get? cc).map CountryAgg.name).getD ""
    let allCities1 :=
      if (s.allCities.get? city).isSome then s.allCities
      else s.allCities.set city ⟨0, cc, cname⟩
    { countries := countries3
      industries := s.industries.incr (entityIndustry item)
      groups := s.groups.incr (entityGroup item)
      allCities := allCities1.modify city fun c => { c with count := c.count + 1 } }
  else s

/-- The full first pass of `processData`. -/
def pass1 (es : List Entity) : Pass1 := es.foldl pass1Step ⟨[], [], [], []⟩

/-- Turn a counting dictionary into `{name, value}` chart data
(`Object.entries(...).map(...)`). -/
def toEntries (m : JsMap Nat) : List Entry := m.map fun p => ⟨p.1, p.2⟩

/-- `industryData` (page.tsx lines 370-376): sort descending, top 10. -/
def industryStatsOf (es : List Entity) : List Entry :=
  (jsStableSortBy cmpValueDesc (toEntries (pass1 es).industries)).take 10

/-- `groupData` (page.tsx lines 378-384): sort descending, top 10. -/
def groupStatsOf (es : List Entity) : List Entry :=
  (jsStableSortBy cmpValueDesc (toEntries (pass1 es).groups)).take 10

/-- `formattedGlobalCities` (page.tsx lines 387-395): sort by count
descending, top 20. -/
def globalCitiesOf (es : List Entity) : List CityEntry :=
  (jsStableSortBy cmpCityDesc
    ((pass1 es).allCities.map fun p =>
      ⟨p.1, p.2.count, p.2.countryCode, p.2.countryName⟩)).take 20

/-- Everything `processData` stores into component state on success. -/
structure DataResult where
  countryStats : JsMap CountryAgg
  industryStats : List Entry
  groupStats : List Entry
  globalCities : List CityEntry
  orgStats : OrgStats
deriving DecidableEq, Repr

/-- `processData` (page.tsx lines 302-408): the first pass and the chart
formatting never throw, but the final `processOrgStats(entities)` call
throws a TypeError on a null/undefined element, in which case no state is
stored at all. -/
def processData (es : List Entity) : Except Unit DataResult :=
  (processOrgStats es).map fun org =>
    { countryStats := (pass1 es).countries
      industryStats := industryStatsOf es
      groupStats := groupStatsOf es
      globalCities := globalCitiesOf es
      orgStats := org }

/-! ### Component state and the selection handler (page.tsx lines 69-95,
410-462) -/

/-- The component state fields the aggregation and selection logic touch. -/
structure AppState where
  data : List Entity
  selectedCountry : Option String
  selectedCountryData : List Entity
  countryStats : JsMap CountryAgg
  industryStats : List Entry
  groupStats : List Entry
  globalCities : List CityEntry
  employeeStats : List RangeEntry
  revenueStats : List RangeEntry
  statusStats : List Entry
  chartAnimationKey : Nat
deriving DecidableEq, Repr

/-- The state after a successful initial fetch: `processData(entities)`
followed by the `set*` calls (page.tsx lines 400-407). -/
def loadData (es : List Entity) : Except Unit AppState :=
  (processData es).map fun r =>
    { data := es
      selectedCountry := none
      selectedCountryData := []
      countryStats := r.countryStats
      industryStats := r.industryStats
      groupStats := r.groupStats
      globalCities := r.globalCities
      employeeStats := r.orgStats.employeeStats
      revenueStats := r.orgStats.revenueStats
      statusStats := r.orgStats.statusStats
      chartAnimationKey := 0 }

/-- `handleCountrySelect` (page.tsx lines 410-440). Selecting the current
code clears the selection and restores the global organization stats;
selecting a different code always records it as selected, and additionally
re-aggregates the organization stats when (and only when) the code has a
`countryStats` entry. `countryStats[null]` is never present (every key is
an upper-cased code or `"UNK"`), so a `null` argument in the else branch
only clears the selection field. -/
def handleCountrySelect (code : Option String) (s : AppState) :
    Except Unit AppState :=
  if code = s.selectedCountry then
    (processOrgStats s.data).map fun org =>
      { s with
        selectedCountry := none
        selectedCountryData := []
        employeeStats := org.employeeStats
        revenueStats := org.revenueStats
        statusStats := org.statusStats
        chartAnimationKey := s.chartAnimationKey + 1 }
  else
    match code with
    | some c =>
      match s.countryStats.get? c with
      | some agg =>
        (processOrgStats agg.entities).map fun org =>
          { s with
            selectedCountry := some c
            selectedCountryData := agg.entities
            employeeStats := org.employeeStats
            revenueStats := org.revenueStats
            statusStats := org.statusStats
            chartAnimationKey := s.chartAnimationKey + 1 }
      | none => .ok { s with selectedCountry := some c }
    | none => .ok { s with selectedCountry := none }

/-- The counting loop of `calculateCountryIndustryStats` (page.tsx lines
446-453); like `processOrgStats` it has no truthiness guard, so a
null/undefined element throws. -/
def countryIndustryAcc (l : List Entity) : Except Unit (JsMap Nat) :=
  l.foldlM
    (fun m e =>
      match e with
      | Entity.nullish => .error ()
      | _ => .ok (m.incr (entityIndustry e)))
    []

/-- The formatting tail of `calculateCountryIndustryStats` (page.tsx
lines 455-461): sort descending, top 8. -/
def countryIndustriesOf (l : List Entity) : Except Unit (List Entry) :=
  (countryIndustryAcc l).map fun m =>
    (jsStableSortBy cmpValueDesc (toEntries m)).take 8

/-- `calculateCountryIndustryStats` (page.tsx lines 443-462): empty when
nothing is selected or the selected data is empty. -/
def calculateCountryIndustryStats (s : AppState) : Except Unit (List Entry) :=
  if s.selectedCountry = none ∨ s.selectedCountryData.isEmpty then .ok []
  else countryIndustriesOf s.selectedCountryData

instance {ε α : Type} [DecidableEq ε] [DecidableEq α] :
    DecidableEq (Except ε α) := fun x y =>
  match x, y with
  | .ok a, .ok b =>
    match decEq a b with
    | isTrue h => isTrue (h ▸ rfl)
    | isFalse h => isFalse fun hh => h (Except.ok.inj hh)
  | .ok _, .error _ => isFalse fun h => Except.noConfusion h
  | .error _, .ok _ => isFalse fun h => Except.noConfusion h
  | .error a, .error b =>
    match decEq a b with
    | isTrue h => isTrue (h ▸ rfl)
    | isFalse h => isFalse fun hh => h (Except.error.inj hh)

/-- The aggregates the page displays: the selection, its backing data, the
industry chart input (`selectedCountry ? selectedCountryIndustries :
industryStats`, page.tsx line 681), and the organization stat panels. -/
structure ViewModel where
  selectedCountry : Option String
  selectedCountryData : List Entity
  displayedIndustries : Except Unit (List Entry)
  employeeStats : List RangeEntry
  revenueStats : List RangeEntry
  statusStats : List Entry
deriving DecidableEq, Repr

/-- Project the displayed aggregates out of a component state. -/
def view (s : AppState) : ViewModel :=
  { selectedCountry := s.selectedCountry
    selectedCountryData := s.selectedCountryData
    displayedIndustries :=
      if s.selectedCountry.isSome then calculateCountryIndustryStats s
      else .ok s.industryStats
    employeeStats := s.employeeStats
    revenueStats := s.revenueStats
    statusStats := s.statusStats }

/-! ### Derived measures and properties the claims are stated with -/

/-- An element of the input list is well-formed exactly when it passes the
`if (!item) return;` truthiness guard, i.e. is counted by the first pass. -/
def wellFormedCount (es : List Entity) : Nat := es.countP isTruthy

/-- The sum of `count` over all entries of a `countries` dictionary. -/
def sumCountryCounts (m : JsMap CountryAgg) : Nat :=
  (m.map fun p => p.2.count).sum

/-- The sum of the `value` fields of a chart data list. -/
def sumEntryValues (l : List Entry) : Nat := (l.map Entry.value).sum

/-- The sum of the values of a counting dictionary. -/
def sumVals (m : JsMap Nat) : Nat := (m.map fun p => p.2).sum

/-- The key list of a dictionary has no duplicates (true of every JS
object, by construction of `set`). -/
def keysNodup (m : JsMap α) : Prop := m.keys.Nodup

/-- The shape the spec requires of `employeeStats`/`revenueStats`: every
entry is a canonical bucket or `"Unknown"` with a positive count and the
table index recorded in `order`, canonical buckets appear in strict table
order, and an `"Unknown"` entry can only be last. -/
def rangeStatsOk (table : List String) (stats : List RangeEntry) : Prop :=
  (∀ x ∈ stats, (x.name ∈ table ∨ x.name = "Unknown") ∧ 0 < x.value ∧
    x.order = jsIndexOf table x.name) ∧
  stats.Pairwise fun a b =>
    a.name ≠ "Unknown" ∧ (b.name = "Unknown" ∨ a.order < b.order)

/-- `sorted` is the stable descending-by-`value` sort of `entries`: a
permutation, sorted by `value` descending, and keeping the original
(first-seen) relative order inside every class of equal counts. -/
def stableDescOk (entries sorted : List Entry) : Prop :=
  sorted.Perm entries ∧
  sorted.Pairwise (fun a b => b.value ≤ a.value) ∧
  ∀ v, sorted.filter (fun x => decide (x.value = v)) =
    entries.filter (fun x => decide (x.value = v))

/-- The shape C8 requires of the three descending top-N charts: each is
the `take` of a stable descending sort of its bucket list (in first-seen
key order). -/
def topNStableOk (es : List Entity) (l : List Entity) (m : JsMap Nat) : Prop :=
  (industryStatsOf es =
      (jsStableSortBy cmpValueDesc (toEntries (pass1 es).industries)).take 10 ∧
    stableDescOk (toEntries (pass1 es).industries)
      (jsStableSortBy cmpValueDesc (toEntries (pass1 es).industries))) ∧
  (groupStatsOf es =
      (jsStableSortBy cmpValueDesc (toEntries (pass1 es).groups)).take 10 ∧
    stableDescOk (toEntries (pass1 es).groups)
      (jsStableSortBy cmpValueDesc (toEntries (pass1 es).groups))) ∧
  (countryIndustriesOf l =
      .ok ((jsStableSortBy cmpValueDesc (toEntries m)).take 8) ∧
    stableDescOk (toEntries m) (jsStableSortBy cmpValueDesc (toEntries m)))

/-- The entity is an object carrying a non-null `organization.industry`. -/
def hasNonNullIndustry : Entity → Bool
  | .obj d => (d.organization.bind (·.industry)).isSome
  | _ => false

/-- An entity object with only a country code and a city. -/
def mkGeoEnt (code city : String) : Entity :=
  .obj ⟨some ⟨some code, none, some city⟩, none, none⟩

/-- An entity object with only an industry. -/
def mkIndEnt (s : String) : Entity :=
  .obj ⟨none, some ⟨some s, none, none⟩, none⟩

/-- The entity list of the spec's `globalCities` example. -/
def exCitiesA : List Entity :=
  [mkGeoEnt "FRA" "Paris", mkGeoEnt "FRA" "Paris", mkGeoEnt "ITA" "Milan"]

/-- Two entities from different countries sharing a city name. -/
def exCitiesB : List Entity := [mkGeoEnt "FRA" "Paris", mkGeoEnt "USA" "Paris"]

/-- An entity object with no `organization` at all. -/
def entNoSize : Entity := .obj ⟨none, none, none⟩

/-- A two-country entity list used to exercise loading and selection. -/
def exLoad : List Entity := [mkGeoEnt "FRA" "Paris", mkGeoEnt "ITA" "Milan"]

/-- The loaded state for `exLoad` (the load succeeds; the fallback is
never taken). -/
def s0ex : AppState :=
  match loadData exLoad with
  | .ok s => s
  | .error _ => {
      data := [], selectedCountry := none, selectedCountryData := []
      countryStats := [], industryStats := [], groupStats := []
      globalCities := [], employeeStats := [], revenueStats := []
      statusStats := [], chartAnimationKey := 0 }

/-- Entities with two canonical ranges, one unrecognized range and one
missing range. -/
def exRanges : List Entity :=
  [Entity.obj ⟨none, some ⟨none, some ⟨some "10-49", some "$1M-$5M"⟩,
      some "Private"⟩, none⟩,
   Entity.obj ⟨none, some ⟨none, some ⟨some "1-9", none⟩, some "Public"⟩, none⟩,
   Entity.obj ⟨none, some ⟨none, some ⟨some "banana", some "huge"⟩,
      some "Private"⟩, none⟩,
   entNoSize]

/-- Eleven entities with eleven pairwise distinct non-null industries. -/
def exElevenIndustries : List Entity :=
  [mkIndEnt "I0", mkIndEnt "I1", mkIndEnt "I2", mkIndEnt "I3", mkIndEnt "I4",
   mkIndEnt "I5", mkIndEnt "I6", mkIndEnt "I7", mkIndEnt "I8", mkIndEnt "I9",
   mkIndEnt "I10"]

/-- Two entities with distinct non-null industries. -/
def exTwoIndustries : List Entity := [mkIndEnt "A", mkIndEnt "B"]

/-- Proof helper: the non-throwing branch of `orgStep` as a pure update. -/
def orgStepPure (acc : OrgAcc) (e : Entity) : OrgAcc :=
  { employeeRanges :=
      bucketRange acc.employeeRanges (jsOr (entityEmployeesRange e) "Unknown")
    revenueRanges :=
      bucketRange acc.revenueRanges (jsOr (entityRevenueRange e) "Unknown")
    orgStatuses := JsMap.incr acc.orgStatuses (jsOr (entityStatus e) "Unknown") }

/-- Proof helper: the organization counting loop run as a pure fold. -/
def orgAccOf (es : List Entity) : OrgAcc := es.foldl orgStepPure initOrgAcc

/-- Proof helper: the `countries` dictionary after the creation check of
one truthy iteration of the first pass. -/
def step_c1 (s : Pass1) (e : Entity) : JsMap CountryAgg :=
  if (JsMap.get? s.countries (entityCountryCode e)).isSome then s.countries
  else JsMap.set s.countries (entityCountryCode e)
    ⟨0, [], [], entityCountryName e⟩

/-- Proof helper: after `count++` and the `entities.push`. -/
def step_c2 (s : Pass1) (e : Entity) : JsMap CountryAgg :=
  JsMap.modify (step_c1 s e) (entityCountryCode e)
    fun a => { a with count := a.count + 1, entities := a.entities ++ [e] }

/-- Proof helper: after the per-country city count. -/
def step_c3 (s : Pass1) (e : Entity) : JsMap CountryAgg :=
  JsMap.modify (step_c2 s e) (entityCountryCode e)
    fun a => { a with cities := JsMap.incr a.cities (entityCity e) }

/-- Proof helper: the `allCities` dictionary after one truthy iteration. -/
def step_ac (s : Pass1) (e : Entity) : JsMap CityAgg :=
  JsMap.modify
    (if (JsMap.get? s.allCities (entityCity e)).isSome then s.allCities
     else JsMap.set s.allCities (entityCity e)
       ⟨0, entityCountryCode e,
        ((JsMap.get? (step_c3 s e) (entityCountryCode e)).map
          CountryAgg.name).getD ""⟩)
    (entityCity e) fun c => { c with count := c.count + 1 }

/-- Proof helper: the non-throwing branch of the country-industry loop. -/
def countryIndustryPure (m : JsMap Nat) (e : Entity) : JsMap Nat :=
  JsMap.incr m (entityIndustry e)

/-- Proof helper: the country-industry loop run as a pure fold. -/
def countryIndustryMapOf (l : List Entity) : JsMap Nat :=
  l.foldl countryIndustryPure []

/-- The state invariant of the first pass: every dictionary has unique
keys (automatic for a JS object) and every stored backing entity passed
the truthiness guard. -/
def pass1Inv (s : Pass1) : Prop :=
  keysNodup s.countries ∧ keysNodup s.industries ∧ keysNodup s.groups ∧
  keysNodup s.allCities ∧
  ∀ p ∈ s.countries, ∀ e ∈ p.2.entities, isTruthy e = true

/-- The organization statistics computed for `exRanges` (the computation
succeeds; the fallback is never taken). -/
def exRangesStats : OrgStats :=
  match processOrgStats exRanges with
  | .ok r => r
  | .error _ => ⟨[], [], []⟩

/-- The country-scoped industry dictionary of `exLoad` (the computation
succeeds; the fallback is never taken). -/
def exLoadIndustryMap : JsMap Nat :=
  match countryIndustryAcc exLoad with
  | .ok m => m
  | .error _ => []

/-- The `processData` result for `exLoad` (the computation succeeds; the
fallback is never taken). -/
def exLoadResult : DataResult :=
  match processData exLoad with
  | .ok r => r
  | .error _ => ⟨[], [], [], [], ⟨[], [], []⟩⟩

namespace JsMap

variable {α : Type}

theorem get?_set_self (m : JsMap α) (k : String) (v : α) :
    JsMap.get? (JsMap.set m k v) k = some v := by
  induction m with
  | nil => simp [set, get?]
  | cons p ps ih =>
    by_cases h : p.1 = k
    · simp [set, h, get?]
    · simp [set, h, get?, ih]

theorem get?_modify_self (m : JsMap α) (k : String) (f : α → α) :
    JsMap.get? (JsMap.modify m k f) k = (JsMap.get? m k).map f := by
  induction m with
  | nil => simp [modify, get?]
  | cons p ps ih =>
    by_cases h : p.1 = k
    · simp [modify, h, get?]
    · simp [modify, h, get?, ih]

theorem get?_eq_none_iff (m : JsMap α) (k : String) :
    JsMap.get? m k = none ↔ k ∉ JsMap.keys m := by
  induction m with
  | nil => simp [get?, keys]
  | cons p ps ih =>
    by_cases h : p.1 = k
    · constructor
      · intro hc
        rw [get?, if_pos h] at hc
        exact absurd hc (by simp)
      · intro hc
        exact absurd (by simp [keys, h]) hc
    · rw [get?, if_neg h]
      constructor
      · intro hn hmem
        rw [keys, List.map_cons, List.mem_cons] at hmem
        rcases hmem with hmem | hmem
        · exact h hmem.symm
        · exact (ih.mp hn) hmem
      · intro hn
        refine ih.mpr fun hm => hn ?_
        rw [keys, List.map_cons, List.mem_cons]
        exact Or.inr hm

theorem keys_modify (m : JsMap α) (k : String) (f : α → α) :
    JsMap.keys (JsMap.modify m k f) = JsMap.keys m := by
  induction m with
  | nil => rfl
  | cons p ps ih =>
    by_cases h : p.1 = k
    · simp [modify, h, keys]
    · simp only [modify, if_neg h, keys, List.map_cons, List.cons.injEq]
      exact ⟨trivial, ih⟩

theorem keys_set_of_mem (m : JsMap α) {k : String} (v : α)
    (h : k ∈ JsMap.keys m) : JsMap.keys (JsMap.set m k v) = JsMap.keys m := by
  induction m with
  | nil => simp [keys] at h
  | cons p ps ih =>
    by_cases hp : p.1 = k
    · simp [set, hp, keys]
    · have h' : k ∈ JsMap.keys ps := by
        rw [keys, List.map_cons, List.mem_cons] at h
        rcases h with h | h
        · exact absurd h.symm hp
        · exact h
      simp only [set, if_neg hp, keys, List.map_cons, List.cons.injEq]
      exact ⟨trivial, ih h'⟩

theorem keys_set_of_not_mem (m : JsMap α) {k : String} (v : α)
    (h : k ∉ JsMap.keys m) :
    JsMap.keys (JsMap.set m k v) = JsMap.keys m ++ [k] := by
  induction m with
  | nil => simp [set, keys]
  | cons p ps ih =>
    have hp : ¬(p.1 = k) := fun hh => h (by simp [keys, hh])
    have h' : k ∉ JsMap.keys ps := fun hh => h (by
      rw [keys, List.map_cons, List.mem_cons]
      exact Or.inr hh)
    simp only [set, if_neg hp, keys, List.map_cons, List.cons_append,
      List.cons.injEq]
    exact ⟨trivial, ih h'⟩

theorem keysNodup_set (m : JsMap α) (k : String) (v : α)
    (h : keysNodup m) : keysNodup (JsMap.set m k v) := by
  by_cases hk : k ∈ JsMap.keys m
  · unfold keysNodup
    rw [keys_set_of_mem m v hk]
    exact h
  · unfold keysNodup
    rw [keys_set_of_not_mem m v hk]
    simpa [List.nodup_append] using ⟨h, hk⟩

theorem keysNodup_modify (m : JsMap α) (k : String) (f : α → α)
    (h : keysNodup m) : keysNodup (JsMap.modify m k f) := by
  unfold keysNodup
  rw [keys_modify]
  exact h

theorem keysNodup_incr (m : JsMap Nat) (k : String)
    (h : keysNodup m) : keysNodup (JsMap.incr m k) :=
  keysNodup_set m k _ h

theorem keysNodup_nil : keysNodup ([] : JsMap α) := by
  simp [keysNodup, keys]

theorem mem_set (m : JsMap α) (k : String) (v : α) {q : String × α}
    (h : q ∈ JsMap.set m k v) : q = (k, v) ∨ q ∈ m := by
  induction m with
  | nil => simpa [set] using h
  | cons p ps ih =>
    by_cases hp : p.1 = k
    · rw [set, if_pos hp, List.mem_cons] at h
      rcases h with h' | h'
      · exact Or.inl h'
      · exact Or.inr (List.mem_cons_of_mem _ h')
    · rw [set, if_neg hp, List.mem_cons] at h
      rcases h with h' | h'
      · exact Or.inr (h' ▸ List.mem_cons_self _ _)
      · rcases ih h' with h'' | h''
        · exact Or.inl h''
        · exact Or.inr (List.mem_cons_of_mem _ h'')

theorem mem_modify (m : JsMap α) (k : String) (f : α → α) {q : String × α}
    (h : q ∈ JsMap.modify m k f) :
    q ∈ m ∨ ∃ p ∈ m, q = (p.1, f p.2) := by
  induction m with
  | nil =>
    rw [modify] at h
    exact absurd h (List.not_mem_nil q)
  | cons p ps ih =>
    by_cases hp : p.1 = k
    · rw [modify, if_pos hp, List.mem_cons] at h
      rcases h with h' | h'
      · exact Or.inr ⟨p, List.mem_cons_self _ _, h'⟩
      · exact Or.inl (List.mem_cons_of_mem _ h')
    · rw [modify, if_neg hp, List.mem_cons] at h
      rcases h with h' | h'
      · exact Or.inl (h' ▸ List.mem_cons_self _ _)
      · rcases ih h' with h'' | h''
        · exact Or.inl (List.mem_cons_of_mem _ h'')
        · rcases h'' with ⟨p', hp', hq⟩
          exact Or.inr ⟨p', List.mem_cons_of_mem _ hp', hq⟩

end JsMap

/-- Generic value-weighted sum over a dictionary. -/
def sumBy (w : α → Nat) (m : JsMap α) : Nat := (m.map fun p => w p.2).sum

theorem sumBy_set_of_none {α : Type} (w : α → Nat) (m : JsMap α)
    {k : String} (v : α) (h : JsMap.get? m k = none) :
    sumBy w (JsMap.set m k v) = sumBy w m + w v := by
  induction m with
  | nil => simp [sumBy, JsMap.set]
  | cons p ps ih =>
    by_cases hp : p.1 = k
    · rw [JsMap.get?, if_pos hp] at h
      exact absurd h (by simp)
    · rw [JsMap.get?, if_neg hp] at h
      simp only [JsMap.set, if_neg hp, sumBy, List.map_cons, List.sum_cons]
      have := ih h
      simp only [sumBy] at this
      omega

theorem sumBy_set_of_some {α : Type} (w : α → Nat) (m : JsMap α)
    {k : String} {a : α} (v : α) (h : JsMap.get? m k = some a) :
    sumBy w (JsMap.set m k v) + w a = sumBy w m + w v := by
  induction m with
  | nil => rw [JsMap.get?] at h; exact absurd h (by simp)
  | cons p ps ih =>
    by_cases hp : p.1 = k
    · rw [JsMap.get?, if_pos hp] at h
      have ha : p.2 = a := by simpa using h
      simp only [JsMap.set, if_pos hp, sumBy, List.map_cons, List.sum_cons, ha]
      omega
    · rw [JsMap.get?, if_neg hp] at h
      simp only [JsMap.set, if_neg hp, sumBy, List.map_cons, List.sum_cons]
      have := ih h
      simp only [sumBy] at this
      omega

theorem sumBy_modify_of_some {α : Type} (w : α → Nat) (m : JsMap α)
    {k : String} {a : α} (f : α → α) (h : JsMap.get? m k = some a) :
    sumBy w (JsMap.modify m k f) + w a = sumBy w m + w (f a) := by
  induction m with
  | nil => rw [JsMap.get?] at h; exact absurd h (by simp)
  | cons p ps ih =>
    by_cases hp : p.1 = k
    · rw [JsMap.get?, if_pos hp] at h
      have ha : p.2 = a := by simpa using h
      simp only [JsMap.modify, if_pos hp, sumBy, List.map_cons,
        List.sum_cons, ha]
      omega
    · rw [JsMap.get?, if_neg hp] at h
      simp only [JsMap.modify, if_neg hp, sumBy, List.map_cons, List.sum_cons]
      have := ih h
      simp only [sumBy] at this
      omega

theorem sumVals_eq_sumBy (m : JsMap Nat) : sumVals m = sumBy id m := rfl

theorem sumVals_incr (m : JsMap Nat) (k : String) :
    sumVals (JsMap.incr m k) = sumVals m + 1 := by
  rw [JsMap.incr]
  rcases hg : JsMap.get? m k with _ | n
  · have := sumBy_set_of_none id m (((none : Option Nat).getD 0) + 1) hg
    simp only [sumVals_eq_sumBy]
    rw [this]
    rfl
  · have := sumBy_set_of_some id m (a := n) (((some n).getD 0) + 1) hg
    simp only [sumVals_eq_sumBy]
    simp only [id, Option.getD_some] at this ⊢
    omega

theorem sumCountryCounts_eq_sumBy (m : JsMap CountryAgg) :
    sumCountryCounts m = sumBy CountryAgg.count m := rfl

/-! ### Lemmas about the stable sort -/

section SortLemmas

variable {α : Type}

theorem mem_stableInsert (keep : α → Bool) (x : α) (l : List α) (a : α) :
    a ∈ stableInsert keep x l ↔ a = x ∨ a ∈ l := by
  induction l with
  | nil => simp [stableInsert]
  | cons y ys ih =>
    by_cases h : keep y
    · simp only [stableInsert, if_pos h, List.mem_cons, ih]
      tauto
    · rw [stableInsert, if_neg h]
      simp [List.mem_cons]

theorem stableInsert_perm (keep : α → Bool) (x : α) (l : List α) :
    (stableInsert keep x l).Perm (x :: l) := by
  induction l with
  | nil => exact List.Perm.refl _
  | cons y ys ih =>
    by_cases h : keep y
    · rw [stableInsert, if_pos h]
      exact (ih.cons y).trans (List.Perm.swap x y ys)
    · rw [stableInsert, if_neg h]

theorem foldl_stableInsert_perm (cmp : α → α → Int) :
    ∀ (rest acc : List α),
      (rest.foldl
        (fun acc x => stableInsert (fun y => decide (cmp y x ≤ 0)) x acc)
        acc).Perm (acc ++ rest)
  | [], acc => by simp
  | x :: rest, acc => by
    rw [List.foldl_cons]
    refine (foldl_stableInsert_perm cmp rest _).trans ?_
    refine (((stableInsert_perm _ x acc).append_right rest).trans ?_)
    exact List.perm_middle.symm

theorem jsStableSortBy_perm (cmp : α → α → Int) (l : List α) :
    (jsStableSortBy cmp l).Perm l := by
  simpa using foldl_stableInsert_perm cmp l []

theorem pairwise_stableInsert (cmp : α → α → Int) (x : α) (l : List α)
    (hp : l.Pairwise fun a b => cmp a b ≤ 0)
    (ht : ∀ y ∈ l, cmp y x ≤ 0 ∨ cmp x y ≤ 0)
    (htr : ∀ y ∈ l, ∀ z ∈ l, cmp x y ≤ 0 → cmp y z ≤ 0 → cmp x z ≤ 0) :
    (stableInsert (fun y => decide (cmp y x ≤ 0)) x l).Pairwise
      fun a b => cmp a b ≤ 0 := by
  induction l with
  | nil => simp [stableInsert]
  | cons y ys ih =>
    rcases List.pairwise_cons.mp hp with ⟨hy, hys⟩
    by_cases h : cmp y x ≤ 0
    · rw [stableInsert, if_pos (by simpa using h)]
      refine List.pairwise_cons.mpr ⟨?_, ?_⟩
      · intro z hz
        rcases (mem_stableInsert _ x ys z).mp hz with rfl | hz'
        · exact h
        · exact hy z hz'
      · refine ih hys (fun y' hy' => ht y' (List.mem_cons_of_mem _ hy')) ?_
        intro y' hy' z hz
        exact htr y' (List.mem_cons_of_mem _ hy') z (List.mem_cons_of_mem _ hz)
    · rw [stableInsert, if_neg (by simpa using h)]
      have hxy : cmp x y ≤ 0 :=
        (ht y (List.mem_cons_self _ _)).resolve_left h
      refine List.pairwise_cons.mpr ⟨?_, hp⟩
      intro z hz
      rcases List.mem_cons.mp hz with rfl | hz'
      · exact hxy
      · exact htr y (List.mem_cons_self _ _) z (List.mem_cons_of_mem _ hz')
          hxy (hy z hz')

theorem pairwise_jsStableSortBy_nodup (cmp : α → α → Int) (l : List α)
    (hnd : l.Nodup)
    (htot : ∀ a ∈ l, ∀ b ∈ l, a ≠ b → cmp a b ≤ 0 ∨ cmp b a ≤ 0)
    (htr : ∀ a ∈ l, ∀ b ∈ l, ∀ c ∈ l, cmp a b ≤ 0 → cmp b c ≤ 0 →
      cmp a c ≤ 0) :
    (jsStableSortBy cmp l).Pairwise fun a b => cmp a b ≤ 0 := by
  have aux : ∀ (rest acc : List α), rest.Nodup →
      (acc.Pairwise fun a b => cmp a b ≤ 0) →
      (∀ a ∈ acc, a ∈ l) → (∀ a ∈ rest, a ∈ l) → (∀ a ∈ rest, a ∉ acc) →
      (rest.foldl
        (fun acc x => stableInsert (fun y => decide (cmp y x ≤ 0)) x acc)
        acc).Pairwise fun a b => cmp a b ≤ 0 := by
    intro rest
    induction rest with
    | nil => intro acc _ hacc _ _ _; simpa using hacc
    | cons x rest ihr =>
      intro acc hnd hacc haccl hrestl hdisj
      rw [List.foldl_cons]
      have hxl : x ∈ l := hrestl x (List.mem_cons_self _ _)
      have hxacc : x ∉ acc := hdisj x (List.mem_cons_self _ _)
      have hins := pairwise_stableInsert cmp x acc hacc
        (fun y hy => htot y (haccl y hy) x hxl
          (fun hyx => hxacc (hyx ▸ hy)))
        (fun y hy z hz => htr x hxl y (haccl y hy) z (haccl z hz))
      refine ihr _ (List.nodup_cons.mp hnd).2 hins ?_ ?_ ?_
      · intro a ha
        rcases (mem_stableInsert _ x acc a).mp ha with rfl | ha'
        · exact hxl
        · exact haccl a ha'
      · intro a ha
        exact hrestl a (List.mem_cons_of_mem _ ha)
      · intro a ha hins'
        rcases (mem_stableInsert _ x acc a).mp hins' with rfl | ha'
        · exact (List.nodup_cons.mp hnd).1 ha
        · exact hdisj a (List.mem_cons_of_mem _ ha) ha'
  exact aux l [] hnd (List.Pairwise.nil) (by simp) (fun a ha => ha) (by simp)

theorem pairwise_jsStableSortBy_total (cmp : α → α → Int)
    (htot : ∀ a b : α, cmp a b ≤ 0 ∨ cmp b a ≤ 0)
    (htr : ∀ a b c : α, cmp a b ≤ 0 → cmp b c ≤ 0 → cmp a c ≤ 0)
    (l : List α) :
    (jsStableSortBy cmp l).Pairwise fun a b => cmp a b ≤ 0 := by
  have aux : ∀ (rest acc : List α),
      (acc.Pairwise fun a b => cmp a b ≤ 0) →
      (rest.foldl
        (fun acc x => stableInsert (fun y => decide (cmp y x ≤ 0)) x acc)
        acc).Pairwise fun a b => cmp a b ≤ 0 := by
    intro rest
    induction rest with
    | nil => intro acc hacc; simpa using hacc
    | cons x rest ihr =>
      intro acc hacc
      rw [List.foldl_cons]
      exact ihr _ (pairwise_stableInsert cmp x acc hacc
        (fun y _ => htot y x) (fun y _ z _ => htr x y z))
  exact aux l [] (List.Pairwise.nil)

theorem filter_stableInsert (cmp : α → α → Int) (p : α → Bool) (x : α)
    (l : List α)
    (hp : l.Pairwise fun a b => cmp a b ≤ 0)
    (htr : ∀ a b c : α, cmp a b ≤ 0 → cmp b c ≤ 0 → cmp a c ≤ 0)
    (hcut : p x = true → ∀ y, ¬cmp y x ≤ 0 → p y = false) :
    (stableInsert (fun y => decide (cmp y x ≤ 0)) x l).filter p
      = l.filter p ++ (if p x then [x] else []) := by
  induction l with
  | nil =>
    by_cases hx : p x
    · simp [stableInsert, hx]
    · simp [stableInsert, List.filter_cons, hx]
  | cons y ys ih =>
    rcases List.pairwise_cons.mp hp with ⟨hy, hys⟩
    by_cases h : cmp y x ≤ 0
    · rw [stableInsert, if_pos (by simpa using h)]
      rw [List.filter_cons, List.filter_cons, ih hys]
      by_cases hpy : p y
      · simp [hpy]
      · simp [hpy]
    · rw [stableInsert, if_neg (by simpa using h)]
      by_cases hx : p x
      · have hfy : p y = false := hcut hx y h
        have hzs : ∀ z ∈ ys, p z = false := by
          intro z hz
          refine hcut hx z fun hzx => h (htr y z x (hy z hz) hzx)
        have hnil : (y :: ys).filter p = [] := by
          refine List.filter_eq_nil_iff.mpr ?_
          intro z hz
          rcases List.mem_cons.mp hz with rfl | hz'
          · simp [hfy]
          · simp [hzs z hz']
        rw [List.filter_cons, hnil]
        simp [hx]
      · rw [List.filter_cons]
        simp [hx]

theorem filter_jsStableSortBy (cmp : α → α → Int) (p : α → Bool)
    (l : List α)
    (htot : ∀ a b : α, cmp a b ≤ 0 ∨ cmp b a ≤ 0)
    (htr : ∀ a b c : α, cmp a b ≤ 0 → cmp b c ≤ 0 → cmp a c ≤ 0)
    (hcut : ∀ x, p x = true → ∀ y, ¬cmp y x ≤ 0 → p y = false) :
    (jsStableSortBy cmp l).filter p = l.filter p := by
  have aux : ∀ (rest acc : List α),
      (acc.Pairwise fun a b => cmp a b ≤ 0) →
      (rest.foldl
        (fun acc x => stableInsert (fun y => decide (cmp y x ≤ 0)) x acc)
        acc).filter p = acc.filter p ++ rest.filter p := by
    intro rest
    induction rest with
    | nil => intro acc _; simp
    | cons x rest ihr =>
      intro acc hacc
      rw [List.foldl_cons]
      have hins := pairwise_stableInsert cmp x acc hacc
        (fun y _ => htot y x) (fun y _ z _ => htr x y z)
      rw [ihr _ hins, filter_stableInsert cmp p x acc hacc htr (hcut x),
        List.filter_cons]
      by_cases hx : p x
      · simp [hx]
      · simp [hx]
  simpa using aux l [] (List.Pairwise.nil)

end SortLemmas

/-! ### Lemmas about the counting loops -/

theorem orgStep_ok (acc : OrgAcc) (e : Entity) (h : e ≠ Entity.nullish) :
    orgStep acc e = .ok (orgStepPure acc e) := by
  cases e with
  | nullish => exact absurd rfl h
  | falsyPrim => rfl
  | truthyPrim => rfl
  | obj d => rfl

theorem foldlM_orgStep_eq :
    ∀ (l : List Entity) (acc : OrgAcc), (∀ e ∈ l, e ≠ Entity.nullish) →
      l.foldlM orgStep acc = .ok (l.foldl orgStepPure acc)
  | [], acc, _ => rfl
  | e :: l, acc, h => by
    rw [List.foldlM_cons, orgStep_ok acc e (h e (List.mem_cons_self _ _))]
    rw [List.foldl_cons]
    simpa using foldlM_orgStep_eq l (orgStepPure acc e)
      fun e' he' => h e' (List.mem_cons_of_mem _ he')

theorem foldlM_orgStep_no_nullish :
    ∀ (l : List Entity) (acc : OrgAcc) (r : OrgAcc),
      l.foldlM orgStep acc = .ok r → ∀ e ∈ l, e ≠ Entity.nullish
  | [], _, _, _ => by simp
  | e :: l, acc, r, h => by
    have he : e ≠ Entity.nullish := by
      intro hee
      subst hee
      rw [List.foldlM_cons] at h
      simp [orgStep, Bind.bind, Except.bind] at h
    intro e' he'
    rcases List.mem_cons.mp he' with rfl | he''
    · exact he
    · rw [List.foldlM_cons, orgStep_ok acc e he] at h
      exact foldlM_orgStep_no_nullish l _ r
        (by simpa [Bind.bind, Except.bind] using h) e' he''

theorem processOrgStats_of_no_nullish (es : List Entity)
    (h : ∀ e ∈ es, e ≠ Entity.nullish) :
    processOrgStats es = .ok
      { employeeStats := formatRanges employeeRangeOrder (orgAccOf es).employeeRanges
        revenueStats := formatRanges revenueRangeOrder (orgAccOf es).revenueRanges
        statusStats := formatStatuses (orgAccOf es).orgStatuses } := by
  rw [processOrgStats, foldlM_orgStep_eq es initOrgAcc h]
  rfl

theorem processOrgStats_ok_elim (es : List Entity) (r : OrgStats)
    (h : processOrgStats es = .ok r) :
    (∀ e ∈ es, e ≠ Entity.nullish) ∧
    r = { employeeStats := formatRanges employeeRangeOrder (orgAccOf es).employeeRanges
          revenueStats := formatRanges revenueRangeOrder (orgAccOf es).revenueRanges
          statusStats := formatStatuses (orgAccOf es).orgStatuses } := by
  rw [processOrgStats] at h
  rcases hf : es.foldlM orgStep initOrgAcc with err | acc
  · rw [hf] at h
    simp [Except.map] at h
  · have hnn := foldlM_orgStep_no_nullish es initOrgAcc acc hf
    have := foldlM_orgStep_eq es initOrgAcc hnn
    rw [hf] at this
    rcases this with ⟨rfl⟩
    rw [hf] at h
    simp only [Except.map] at h
    rcases h with ⟨rfl⟩
    exact ⟨hnn, rfl⟩

/-! ### Lemmas about the first pass -/

theorem pass1Step_of_falsy (s : Pass1) (e : Entity)
    (h : isTruthy e = false) : pass1Step s e = s := by
  simp [pass1Step, h]

theorem pass1Step_of_truthy (s : Pass1) (e : Entity)
    (h : isTruthy e = true) :
    pass1Step s e =
      { countries := step_c3 s e
        industries := JsMap.incr s.industries (entityIndustry e)
        groups := JsMap.incr s.groups (entityGroup e)
        allCities := step_ac s e } := by
  simp [pass1Step, h, step_ac, step_c3, step_c2, step_c1]

theorem pass1Step_inv (s : Pass1) (e : Entity) (h : pass1Inv s) :
    pass1Inv (pass1Step s e) := by
  obtain ⟨hc, hi, hg, ha, hent⟩ := h
  by_cases ht : isTruthy e
  · rw [pass1Step_of_truthy s e ht]
    have hc1 : keysNodup (step_c1 s e) := by
      rw [step_c1]
      by_cases hs : (JsMap.get? s.countries (entityCountryCode e)).isSome
      · rw [if_pos hs]; exact hc
      · rw [if_neg hs]; exact JsMap.keysNodup_set _ _ _ hc
    have hent1 : ∀ p ∈ step_c1 s e, ∀ e' ∈ p.2.entities, isTruthy e' = true := by
      rw [step_c1]
      by_cases hs : (JsMap.get? s.countries (entityCountryCode e)).isSome
      · rw [if_pos hs]; exact hent
      · rw [if_neg hs]
        intro p hp e' he'
        rcases JsMap.mem_set _ _ _ hp with rfl | hp'
        · simp at he'
        · exact hent p hp' e' he'
    have hent2 : ∀ p ∈ step_c2 s e, ∀ e' ∈ p.2.entities, isTruthy e' = true := by
      intro p hp e' he'
      rcases JsMap.mem_modify _ _ _ hp with hp' | ⟨q, hq, rfl⟩
      · exact hent1 p hp' e' he'
      · simp only at he'
        rcases List.mem_append.mp he' with he'' | he''
        · exact hent1 q hq e' he''
        · rw [List.mem_singleton.mp he'']
          exact ht
    have hent3 : ∀ p ∈ step_c3 s e, ∀ e' ∈ p.2.entities, isTruthy e' = true := by
      intro p hp e' he'
      rcases JsMap.mem_modify _ _ _ hp with hp' | ⟨q, hq, rfl⟩
      · exact hent2 p hp' e' he'
      · exact hent2 q hq e' he'
    refine ⟨JsMap.keysNodup_modify _ _ _ (JsMap.keysNodup_modify _ _ _ hc1),
      JsMap.keysNodup_incr _ _ hi, JsMap.keysNodup_incr _ _ hg, ?_, hent3⟩
    · rw [step_ac]
      refine JsMap.keysNodup_modify _ _ _ ?_
      by_cases hs : (JsMap.get? s.allCities (entityCity e)).isSome
      · rw [if_pos hs]; exact ha
      · rw [if_neg hs]; exact JsMap.keysNodup_set _ _ _ ha
  · rw [pass1Step_of_falsy s e (by simpa using ht)]
    exact ⟨hc, hi, hg, ha, hent⟩

theorem pass1_inv (es : List Entity) : pass1Inv (pass1 es) := by
  have aux : ∀ (l : List Entity) (s : Pass1), pass1Inv s →
      pass1Inv (l.foldl pass1Step s) := by
    intro l
    induction l with
    | nil => intro s hs; exact hs
    | cons e l ih => intro s hs; exact ih _ (pass1Step_inv s e hs)
  refine aux es _ ⟨JsMap.keysNodup_nil, JsMap.keysNodup_nil,
    JsMap.keysNodup_nil, JsMap.keysNodup_nil, ?_⟩
  intro p hp
  simp at hp

theorem sumCounts_pass1Step (s : Pass1) (e : Entity) :
    sumCountryCounts (pass1Step s e).countries =
      sumCountryCounts s.countries + (if isTruthy e then 1 else 0) := by
  by_cases ht : isTruthy e
  · rw [pass1Step_of_truthy s e ht, if_pos ht]
    have h1 : ∃ a, JsMap.get? (step_c1 s e) (entityCountryCode e) = some a ∧
        sumBy CountryAgg.count (step_c1 s e) =
          sumBy CountryAgg.count s.countries := by
      rw [step_c1]
      by_cases hs : (JsMap.get? s.countries (entityCountryCode e)).isSome
      · rcases Option.isSome_iff_exists.mp hs with ⟨a, hga⟩
        exact ⟨a, by rw [if_pos hs]; exact hga, by rw [if_pos hs]⟩
      · have hn := Option.not_isSome_iff_eq_none.mp hs
        refine ⟨⟨0, [], [], entityCountryName e⟩, ?_, ?_⟩
        · rw [if_neg hs, JsMap.get?_set_self]
        · rw [if_neg hs, sumBy_set_of_none _ _ _ hn]
          rfl
    rcases h1 with ⟨a, hga, hsum1⟩
    have hga2 : JsMap.get? (step_c2 s e) (entityCountryCode e) =
        some { a with count := a.count + 1, entities := a.entities ++ [e] } := by
      rw [step_c2, JsMap.get?_modify_self, hga]
      rfl
    have h2 : sumBy CountryAgg.count (step_c2 s e) =
        sumBy CountryAgg.count (step_c1 s e) + 1 := by
      have h := sumBy_modify_of_some CountryAgg.count (step_c1 s e)
        (k := entityCountryCode e) (a := a)
        (fun a => { a with count := a.count + 1, entities := a.entities ++ [e] })
        hga
      rw [show JsMap.modify (step_c1 s e) (entityCountryCode e)
        (fun a => { a with count := a.count + 1, entities := a.entities ++ [e] })
          = step_c2 s e from rfl] at h
      dsimp only at h
      omega
    have h3 : sumBy CountryAgg.count (step_c3 s e) =
        sumBy CountryAgg.count (step_c2 s e) := by
      have h := sumBy_modify_of_some CountryAgg.count (step_c2 s e)
        (k := entityCountryCode e)
        (fun a => { a with cities := JsMap.incr a.cities (entityCity e) })
        hga2
      rw [show JsMap.modify (step_c2 s e) (entityCountryCode e)
        (fun a => { a with cities := JsMap.incr a.cities (entityCity e) })
          = step_c3 s e from rfl] at h
      dsimp only at h
      omega
    rw [sumCountryCounts_eq_sumBy, sumCountryCounts_eq_sumBy, h3, h2, hsum1]
  · rw [pass1Step_of_falsy s e (by simpa using ht), if_neg ht]
    omega

theorem sumCounts_pass1 (es : List Entity) :
    sumCountryCounts (pass1 es).countries = wellFormedCount es := by
  have aux : ∀ (l : List Entity) (s : Pass1),
      sumCountryCounts (l.foldl pass1Step s).countries =
        sumCountryCounts s.countries + l.countP isTruthy := by
    intro l
    induction l with
    | nil => intro s; simp
    | cons e l ih =>
      intro s
      rw [List.foldl_cons, ih, sumCounts_pass1Step, List.countP_cons]
      by_cases ht : isTruthy e
      · simp [ht]
        omega
      · simp [ht]
  rw [pass1, wellFormedCount, aux es _]
  simp [sumCountryCounts]

theorem processData_ok_elim (es : List Entity) (r : DataResult)
    (h : processData es = .ok r) :
    processOrgStats es = .ok r.orgStats ∧
    r.countryStats = (pass1 es).countries ∧
    r.industryStats = industryStatsOf es ∧
    r.groupStats = groupStatsOf es ∧
    r.globalCities = globalCitiesOf es := by
  rw [processData] at h
  rcases ho : processOrgStats es with err | org
  · rw [ho] at h
    simp [Except.map] at h
  · rw [ho] at h
    simp only [Except.map] at h
    injection h with h
    subst h
    exact ⟨rfl, rfl, rfl, rfl, rfl⟩

/-! ### Claim theorems -/

/-- C1: for every entity list whose aggregation succeeds, `processData`
counts each well-formed (truthy) entity under exactly one normalized
country bucket: the sum of `count` over all entries of `countryStats`
equals the number of well-formed entities of the input list. -/
theorem C1_sum_of_countryStats (es : List Entity) (r : DataResult)
    (h : processData es = .ok r) :
    sumCountryCounts r.countryStats = wellFormedCount es := by
  rcases processData_ok_elim es r h with ⟨-, hcs, -, -, -⟩
  rw [hcs, sumCounts_pass1]

/-- Witness for C1 at the concrete two-entity list `exLoad`. -/
theorem C1_sum_of_countryStats_witness :
    processData exLoad = .ok exLoadResult ∧
    sumCountryCounts exLoadResult.countryStats = wellFormedCount exLoad :=
  ⟨rfl, C1_sum_of_countryStats exLoad exLoadResult rfl⟩

/-- C2 (code bug): an entity whose `organization.size.employees_range`
and `revenue_range` are absent is NOT counted in the `"Unknown"` bucket:
because the `"Unknown"` key does not exist yet, the
`else if (employeeRange !== "Unknown")` guard drops the record from
`employeeStats` and `revenueStats` entirely (while the same record still
reaches `statusStats`), contradicting the claim that no contribution is
silently lost. -/
theorem C2_missing_range_dropped :
    processOrgStats [entNoSize] =
      .ok { employeeStats := [], revenueStats := [],
            statusStats := [⟨"Unknown", 1⟩] } := rfl

/-- C5 (code bug): the first pass of `processData` does skip a null
element silently (all four dictionaries stay empty), but `processData`
then calls `processOrgStats` on the same list, which evaluates
`entity.organization` on the null element and throws a TypeError, so the
aggregation as a whole raises an exception instead of skipping the
element silently. -/
theorem C5_null_entity_throws :
    processData [Entity.nullish] = .error () ∧
    (pass1 [Entity.nullish]).countries = [] ∧
    (pass1 [Entity.nullish]).industries = [] ∧
    (pass1 [Entity.nullish]).groups = [] ∧
    (pass1 [Entity.nullish]).allCities = [] :=
  ⟨rfl, rfl, rfl, rfl, rfl⟩

/-- C7: global city aggregation keys on the raw city string alone. On the
spec's example list the result is exactly
`[{Paris, 2, FRA}, {Milan, 1, ITA}]`, and on a list whose two entities
come from different countries but share the city name `"Paris"` the two
records are merged into a single bucket attributed to the first
country. -/
theorem C7_globalCities_example :
    globalCitiesOf exCitiesA =
      [⟨"Paris", 2, "FRA", "FRA"⟩, ⟨"Milan", 1, "ITA", "ITA"⟩] ∧
    globalCitiesOf exCitiesB = [⟨"Paris", 2, "FRA", "FRA"⟩] :=
  ⟨rfl, rfl⟩

/-! ### Lemmas about loading and selection -/

theorem get?_mem {α : Type} (m : JsMap α) (k : String) (a : α)
    (h : JsMap.get? m k = some a) : (k, a) ∈ m := by
  induction m with
  | nil => exact absurd h (by rw [JsMap.get?]; simp)
  | cons p ps ih =>
    by_cases hp : p.1 = k
    · rw [JsMap.get?, if_pos hp] at h
      have hpa : p = (k, a) := Prod.ext hp (Option.some.inj h)
      rw [hpa]
      exact List.mem_cons_self _ _
    · rw [JsMap.get?, if_neg hp] at h
      exact List.mem_cons_of_mem _ (ih h)

theorem isTruthy_ne_nullish (e : Entity) (h : isTruthy e = true) :
    e ≠ Entity.nullish := by
  intro hh
  subst hh
  simp [isTruthy] at h

theorem loadData_ok_elim (es : List Entity) (s : AppState)
    (h : loadData es = .ok s) :
    ∃ r, processData es = .ok r ∧
      s = { data := es, selectedCountry := none, selectedCountryData := []
            countryStats := r.countryStats, industryStats := r.industryStats
            groupStats := r.groupStats, globalCities := r.globalCities
            employeeStats := r.orgStats.employeeStats
            revenueStats := r.orgStats.revenueStats
            statusStats := r.orgStats.statusStats
            chartAnimationKey := 0 } := by
  rw [loadData] at h
  rcases hp : processData es with e | r
  · rw [hp] at h
    simp [Except.map] at h
  · rw [hp] at h
    simp only [Except.map] at h
    injection h with h
    exact ⟨r, rfl, h.symm⟩

theorem handleCountrySelect_select (c : String) (s : AppState)
    (agg : CountryAgg) (org : OrgStats)
    (hne : s.selectedCountry ≠ some c)
    (hagg : JsMap.get? s.countryStats c = some agg)
    (horg : processOrgStats agg.entities = .ok org) :
    handleCountrySelect (some c) s = .ok
      { s with selectedCountry := some c
               selectedCountryData := agg.entities
               employeeStats := org.employeeStats
               revenueStats := org.revenueStats
               statusStats := org.statusStats
               chartAnimationKey := s.chartAnimationKey + 1 } := by
  rw [handleCountrySelect, if_neg (fun hh => hne hh.symm)]
  simp only [hagg, horg, Except.map]

theorem handleCountrySelect_toggle (c : String) (s : AppState)
    (org : OrgStats)
    (heq : s.selectedCountry = some c)
    (horg : processOrgStats s.data = .ok org) :
    handleCountrySelect (some c) s = .ok
      { s with selectedCountry := none
               selectedCountryData := []
               employeeStats := org.employeeStats
               revenueStats := org.revenueStats
               statusStats := org.statusStats
               chartAnimationKey := s.chartAnimationKey + 1 } := by
  rw [handleCountrySelect, if_pos heq.symm, horg]
  rfl

/-- C3: from a freshly loaded (unselected) state, selecting any country
that has a `countryStats` entry and then re-selecting the same country
(the toggle that clears the selection) succeeds and leaves every
displayed aggregate — selection state, selected data, the industry chart
input, `employeeStats`, `revenueStats`, `statusStats` — identical to the
pre-selection global state. -/
theorem C3_toggle_roundtrip (es : List Entity) (c : String) (s0 : AppState)
    (h : loadData es = .ok s0)
    (hc : (JsMap.get? s0.countryStats c).isSome = true) :
    Except.map view ((handleCountrySelect (some c) s0).bind
      (handleCountrySelect (some c))) = Except.ok (view s0) := by
  rcases loadData_ok_elim es s0 h with ⟨r, hp, hs⟩
  rcases processData_ok_elim es r hp with ⟨horg, hcs, hind, hgrp, hgc⟩
  have hdata : s0.data = es := by rw [hs]
  have hselc : s0.selectedCountry = none := by rw [hs]
  have hscd : s0.selectedCountryData = [] := by rw [hs]
  have hcs0 : s0.countryStats = (pass1 es).countries := by rw [hs, hcs]
  have hemp : s0.employeeStats = r.orgStats.employeeStats := by rw [hs]
  have hrev : s0.revenueStats = r.orgStats.revenueStats := by rw [hs]
  have hsts : s0.statusStats = r.orgStats.statusStats := by rw [hs]
  rw [hcs0] at hc
  rcases Option.isSome_iff_exists.mp hc with ⟨agg, hagg⟩
  have hmem := get?_mem _ _ _ hagg
  have hnn : ∀ e ∈ agg.entities, e ≠ Entity.nullish := by
    intro e he
    exact isTruthy_ne_nullish e
      ((pass1_inv es).2.2.2.2 (c, agg) hmem e he)
  have ho1 := processOrgStats_of_no_nullish agg.entities hnn
  have hsel := handleCountrySelect_select c s0 agg _
    (by rw [hselc]; simp) (by rw [hcs0]; exact hagg) ho1
  have htog := handleCountrySelect_toggle c
    { s0 with selectedCountry := some c
              selectedCountryData := agg.entities
              employeeStats := formatRanges employeeRangeOrder
                (orgAccOf agg.entities).employeeRanges
              revenueStats := formatRanges revenueRangeOrder
                (orgAccOf agg.entities).revenueRanges
              statusStats := formatStatuses (orgAccOf agg.entities).orgStatuses
              chartAnimationKey := s0.chartAnimationKey + 1 }
    r.orgStats rfl (by
      show processOrgStats s0.data = Except.ok r.orgStats
      rw [hdata]
      exact horg)
  rw [hsel]
  show Except.map view (Except.bind (Except.ok _) (handleCountrySelect (some c)))
    = Except.ok (view s0)
  rw [Except.bind]
  rw [htog]
  rw [Except.map]
  congr 1
  rw [view, view]
  simp only [hselc, hscd, hemp, hrev, hsts]
  rfl

/-- Witness for C3 at the concrete list `exLoad` and country `"FRA"`. -/
theorem C3_toggle_roundtrip_witness :
    loadData exLoad = .ok s0ex ∧
    (JsMap.get? s0ex.countryStats "FRA").isSome = true ∧
    Except.map view ((handleCountrySelect (some "FRA") s0ex).bind
      (handleCountrySelect (some "FRA"))) = Except.ok (view s0ex) :=
  ⟨rfl, rfl, C3_toggle_roundtrip exLoad "FRA" s0ex rfl rfl⟩

/-- C4 (counterexample): in the loaded state for `exLoad`, invoking
country selection with `"ZZZ"`, a code with no `countryStats` entry, is
NOT a no-op: `handleCountrySelect` still records `"ZZZ"` as the selected
country, so the selection state changes. -/
theorem C4_absent_code_counterexample :
    JsMap.get? s0ex.countryStats "ZZZ" = none ∧
    s0ex.selectedCountry = none ∧
    handleCountrySelect (some "ZZZ") s0ex =
      .ok { s0ex with selectedCountry := some "ZZZ" } ∧
    ({ s0ex with selectedCountry := some "ZZZ" } : AppState) ≠ s0ex := by
  refine ⟨rfl, rfl, rfl, ?_⟩
  intro h
  exact Option.noConfusion (congrArg AppState.selectedCountry h)

/-- C4 (amended): from an unselected state, invoking country selection
with a code that has no `countryStats` entry sets the selection field to
that code and changes no stored aggregate (the resulting state is the old
one with only `selectedCountry` replaced) — but it is still not a no-op
on the displayed aggregates: because the industry chart keys off the
selection, the displayed view switches its industry input from the global
`industryStats` to the empty country-scoped list (and is otherwise
unchanged: selected data stays empty and the employee/revenue/status
panels keep their global contents). -/
theorem C4_absent_code_effect (c : String) (s : AppState)
    (h : JsMap.get? s.countryStats c = none)
    (hsel : s.selectedCountry = none)
    (hdat : s.selectedCountryData = []) :
    handleCountrySelect (some c) s =
      .ok { s with selectedCountry := some c } ∧
    view { s with selectedCountry := some c } =
      { selectedCountry := some c
        selectedCountryData := []
        displayedIndustries := .ok []
        employeeStats := s.employeeStats
        revenueStats := s.revenueStats
        statusStats := s.statusStats } ∧
    view s =
      { selectedCountry := none
        selectedCountryData := []
        displayedIndustries := .ok s.industryStats
        employeeStats := s.employeeStats
        revenueStats := s.revenueStats
        statusStats := s.statusStats } := by
  refine ⟨?_, ?_, ?_⟩
  · rw [handleCountrySelect, if_neg (by rw [hsel]; simp)]
    simp only [h]
  · simp [view, calculateCountryIndustryStats, hdat]
  · simp [view, hsel, hdat]

/-- Witness for the amended C4 at the concrete state `s0ex` and the
absent code `"ZZZ"`: the displayed industry input is `[{Unknown, 2}]`
before and `[]` after. -/
theorem C4_absent_code_effect_witness :
    JsMap.get? s0ex.countryStats "ZZZ" = none ∧
    s0ex.selectedCountry = none ∧
    s0ex.selectedCountryData = [] ∧
    s0ex.industryStats = [⟨"Unknown", 2⟩] ∧
    (handleCountrySelect (some "ZZZ") s0ex =
        .ok { s0ex with selectedCountry := some "ZZZ" } ∧
      view { s0ex with selectedCountry := some "ZZZ" } =
        { selectedCountry := some "ZZZ"
          selectedCountryData := []
          displayedIndustries := .ok []
          employeeStats := s0ex.employeeStats
          revenueStats := s0ex.revenueStats
          statusStats := s0ex.statusStats } ∧
      view s0ex =
        { selectedCountry := none
          selectedCountryData := []
          displayedIndustries := .ok s0ex.industryStats
          employeeStats := s0ex.employeeStats
          revenueStats := s0ex.revenueStats
          statusStats := s0ex.statusStats }) :=
  ⟨rfl, rfl, rfl, rfl, C4_absent_code_effect "ZZZ" s0ex rfl rfl rfl⟩

/-! ### Sums over the industry dictionary -/

theorem sumVals_pass1_industries (es : List Entity) :
    sumVals (pass1 es).industries = es.countP isTruthy := by
  have aux : ∀ (l : List Entity) (s : Pass1),
      sumVals (l.foldl pass1Step s).industries =
        sumVals s.industries + l.countP isTruthy := by
    intro l
    induction l with
    | nil => intro s; simp
    | cons e l ih =>
      intro s
      rw [List.foldl_cons, ih, List.countP_cons]
      by_cases ht : isTruthy e
      · rw [pass1Step_of_truthy s e ht]
        dsimp only
        rw [sumVals_incr]
        simp [ht]
        omega
      · rw [pass1Step_of_falsy s e (by simpa using ht)]
        simp [ht]
  rw [pass1, aux]
  simp [sumVals]

theorem sumEntryValues_toEntries (m : JsMap Nat) :
    sumEntryValues (toEntries m) = sumVals m := by
  rw [sumEntryValues, toEntries, sumVals, List.map_map]
  rfl

theorem sumEntryValues_perm (l1 l2 : List Entry) (h : l1.Perm l2) :
    sumEntryValues l1 = sumEntryValues l2 :=
  (h.map Entry.value).sum_eq

theorem sumEntryValues_take_le (l : List Entry) (n : Nat) :
    sumEntryValues (l.take n) ≤ sumEntryValues l := by
  conv_rhs => rw [← List.take_append_drop n l]
  rw [sumEntryValues, sumEntryValues, List.map_append, List.sum_append]
  omega

theorem hasNonNullIndustry_isTruthy (e : Entity)
    (h : hasNonNullIndustry e = true) : isTruthy e = true := by
  cases e with
  | obj d => rfl
  | nullish => simp [hasNonNullIndustry] at h
  | falsyPrim => simp [hasNonNullIndustry] at h
  | truthyPrim => simp [hasNonNullIndustry] at h

/-- C9 (amended): the sum of the `value` fields of `industryStats` never
exceeds the total entity count, and it equals the total count whenever
every entity is an object with a non-null industry AND the number of
distinct industry buckets is at most 10 (so the top-10 truncation keeps
every bucket). -/
theorem C9_industry_sum_bounds (es : List Entity) :
    sumEntryValues (industryStatsOf es) ≤ es.length ∧
    ((∀ e ∈ es, hasNonNullIndustry e = true) →
      (pass1 es).industries.length ≤ 10 →
      sumEntryValues (industryStatsOf es) = es.length) := by
  constructor
  · calc sumEntryValues (industryStatsOf es)
        ≤ sumEntryValues
            (jsStableSortBy cmpValueDesc (toEntries (pass1 es).industries)) := by
          rw [industryStatsOf]
          exact sumEntryValues_take_le _ 10
      _ = sumEntryValues (toEntries (pass1 es).industries) :=
          sumEntryValues_perm _ _ (jsStableSortBy_perm _ _)
      _ = sumVals (pass1 es).industries := sumEntryValues_toEntries _
      _ = es.countP isTruthy := sumVals_pass1_industries es
      _ ≤ es.length := List.countP_le_length _
  · intro hall hlen
    have hlen2 : (jsStableSortBy cmpValueDesc
        (toEntries (pass1 es).industries)).length ≤ 10 := by
      rw [(jsStableSortBy_perm _ _).length_eq, toEntries, List.length_map]
      exact hlen
    rw [industryStatsOf, List.take_of_length_le hlen2,
      sumEntryValues_perm _ _ (jsStableSortBy_perm _ _),
      sumEntryValues_toEntries, sumVals_pass1_industries]
    refine List.countP_eq_length.mpr ?_
    intro e he
    exact hasNonNullIndustry_isTruthy e (hall e he)

/-- Witness for the amended C9 at the concrete list `exTwoIndustries`. -/
theorem C9_industry_sum_bounds_witness :
    (∀ e ∈ exTwoIndustries, hasNonNullIndustry e = true) ∧
    (pass1 exTwoIndustries).industries.length ≤ 10 ∧
    sumEntryValues (industryStatsOf exTwoIndustries) =
      exTwoIndustries.length :=
  ⟨by decide, by decide,
   (C9_industry_sum_bounds exTwoIndustries).2 (by decide) (by decide)⟩

/-- C9 (counterexample): eleven entities with eleven pairwise distinct
non-null industries make `industryStats` truncate to its top 10 buckets,
so the sum of the displayed values is 10 while the total entity count is
11 — the claimed equality fails even though every entity has a non-null
industry. -/
theorem C9_truncation_counterexample :
    exElevenIndustries.all hasNonNullIndustry = true ∧
    exElevenIndustries.length = 11 ∧
    sumEntryValues (industryStatsOf exElevenIndustries) = 10 :=
  ⟨rfl, rfl, rfl⟩

/-! ### Stability of the descending sorts -/

theorem stableDescOk_sort (entries : List Entry) :
    stableDescOk entries (jsStableSortBy cmpValueDesc entries) := by
  refine ⟨jsStableSortBy_perm _ _, ?_, ?_⟩
  · have hs := pairwise_jsStableSortBy_total cmpValueDesc
      (by intro a b; simp only [cmpValueDesc]; omega)
      (by intro a b c; simp only [cmpValueDesc]; omega) entries
    exact hs.imp (by intro a b h; simp only [cmpValueDesc] at h; omega)
  · intro v
    refine filter_jsStableSortBy cmpValueDesc _ entries
      (by intro a b; simp only [cmpValueDesc]; omega)
      (by intro a b c; simp only [cmpValueDesc]; omega) ?_
    intro x hx y hy
    simp only [cmpValueDesc, decide_eq_true_eq] at hx hy ⊢
    simp only [decide_eq_false_iff_not]
    omega

/-- C8: `industryStats` and `groupStats` are the first 10 entries (and
the country-scoped industry chart the first 8 entries) of their bucket
lists sorted by count descending with a stable sort: the sorted list is a
permutation of the bucket list, its counts are non-increasing, and every
class of equal counts keeps its first-seen relative order. -/
theorem C8_topN_stable_sort (es : List Entity) (l : List Entity)
    (m : JsMap Nat) (hm : countryIndustryAcc l = .ok m) :
    topNStableOk es l m := by
  refine ⟨⟨rfl, stableDescOk_sort _⟩, ⟨rfl, stableDescOk_sort _⟩,
    ⟨?_, stableDescOk_sort _⟩⟩
  rw [countryIndustriesOf, hm]
  rfl

/-- Witness for C8 at the concrete list `exLoad`. -/
theorem C8_topN_stable_sort_witness :
    countryIndustryAcc exLoad = .ok exLoadIndustryMap ∧
    topNStableOk exLoad exLoad exLoadIndustryMap :=
  ⟨rfl, C8_topN_stable_sort exLoad exLoad exLoadIndustryMap rfl⟩

/-! ### The employee/revenue formatter -/

theorem jsIndexOf_nonneg_of_mem (t : List String) (a : String) (h : a ∈ t) :
    0 ≤ jsIndexOf t a := by
  induction t with
  | nil => simp at h
  | cons x xs ih =>
    rw [jsIndexOf]
    by_cases hx : x = a
    · rw [if_pos hx]
    · rw [if_neg hx]
      have hmem : a ∈ xs := by
        rcases List.mem_cons.mp h with h' | h'
        · exact absurd h'.symm hx
        · exact h'
      have := ih hmem
      rw [if_neg (by omega)]
      omega

theorem jsIndexOf_inj (t : List String) (a b : String) (ha : a ∈ t)
    (hb : b ∈ t) (h : jsIndexOf t a = jsIndexOf t b) : a = b := by
  induction t with
  | nil => simp at ha
  | cons x xs ih =>
    rw [jsIndexOf, jsIndexOf] at h
    by_cases hxa : x = a <;> by_cases hxb : x = b
    · exact hxa.symm.trans hxb
    · exfalso
      have hbm : b ∈ xs := by
        rcases List.mem_cons.mp hb with h' | h'
        · exact absurd h'.symm hxb
        · exact h'
      have hnn := jsIndexOf_nonneg_of_mem xs b hbm
      rw [if_pos hxa, if_neg hxb, if_neg (by omega)] at h
      omega
    · exfalso
      have ham : a ∈ xs := by
        rcases List.mem_cons.mp ha with h' | h'
        · exact absurd h'.symm hxa
        · exact h'
      have hnn := jsIndexOf_nonneg_of_mem xs a ham
      rw [if_neg hxa, if_pos hxb, if_neg (by omega)] at h
      omega
    · have ham : a ∈ xs := by
        rcases List.mem_cons.mp ha with h' | h'
        · exact absurd h'.symm hxa
        · exact h'
      have hbm : b ∈ xs := by
        rcases List.mem_cons.mp hb with h' | h'
        · exact absurd h'.symm hxb
        · exact h'
      have hna := jsIndexOf_nonneg_of_mem xs a ham
      have hnb := jsIndexOf_nonneg_of_mem xs b hbm
      rw [if_neg hxa, if_neg hxb, if_neg (by omega), if_neg (by omega)] at h
      exact ih ham hbm (by omega)

theorem hasKey_iff {α : Type} (m : JsMap α) (k : String) :
    JsMap.hasKey m k = true ↔ k ∈ JsMap.keys m := by
  rw [JsMap.hasKey, Option.isSome_iff_ne_none]
  constructor
  · intro h
    by_contra hk
    exact h ((JsMap.get?_eq_none_iff m k).mpr hk)
  · intro h hc
    exact (JsMap.get?_eq_none_iff m k).mp hc h

theorem mem_keys_incr {m : JsMap Nat} {v k : String}
    (h : k ∈ JsMap.keys (JsMap.incr m v)) : k ∈ JsMap.keys m ∨ k = v := by
  rw [JsMap.incr] at h
  by_cases hm : v ∈ JsMap.keys m
  · rw [JsMap.keys_set_of_mem _ _ hm] at h
    exact Or.inl h
  · rw [JsMap.keys_set_of_not_mem _ _ hm] at h
    rcases List.mem_append.mp h with h | h
    · exact Or.inl h
    · exact Or.inr (List.mem_singleton.mp h)

theorem mem_keys_bucketRange {m : JsMap Nat} {v k : String}
    (hk : k ∈ JsMap.keys (bucketRange m v)) :
    k ∈ JsMap.keys m ∨ k = "Unknown" := by
  rw [bucketRange] at hk
  split_ifs at hk with h1 h2
  · rcases mem_keys_incr hk with h | h
    · exact Or.inl h
    · exact Or.inl (h ▸ (hasKey_iff m v).mp h1)
  · rcases mem_keys_incr hk with h | h
    · exact Or.inl h
    · exact Or.inr h
  · exact Or.inl hk

theorem keysNodup_bucketRange (m : JsMap Nat) (v : String)
    (h : keysNodup m) : keysNodup (bucketRange m v) := by
  rw [bucketRange]
  split_ifs with h1 h2
  · exact JsMap.keysNodup_incr _ _ h
  · exact JsMap.keysNodup_incr _ _ h
  · exact h

theorem orgAccOf_inv (es : List Entity) :
    (keysNodup (orgAccOf es).employeeRanges ∧
      ∀ k ∈ JsMap.keys (orgAccOf es).employeeRanges,
        k ∈ employeeRangeOrder ∨ k = "Unknown") ∧
    (keysNodup (orgAccOf es).revenueRanges ∧
      ∀ k ∈ JsMap.keys (orgAccOf es).revenueRanges,
        k ∈ revenueRangeOrder ∨ k = "Unknown") := by
  have aux : ∀ (l : List Entity) (acc : OrgAcc),
      (keysNodup acc.employeeRanges ∧
        ∀ k ∈ JsMap.keys acc.employeeRanges,
          k ∈ employeeRangeOrder ∨ k = "Unknown") →
      (keysNodup acc.revenueRanges ∧
        ∀ k ∈ JsMap.keys acc.revenueRanges,
          k ∈ revenueRangeOrder ∨ k = "Unknown") →
      (keysNodup (l.foldl orgStepPure acc).employeeRanges ∧
        ∀ k ∈ JsMap.keys (l.foldl orgStepPure acc).employeeRanges,
          k ∈ employeeRangeOrder ∨ k = "Unknown") ∧
      (keysNodup (l.foldl orgStepPure acc).revenueRanges ∧
        ∀ k ∈ JsMap.keys (l.foldl orgStepPure acc).revenueRanges,
          k ∈ revenueRangeOrder ∨ k = "Unknown") := by
    intro l
    induction l with
    | nil => intro acc h1 h2; exact ⟨h1, h2⟩
    | cons e l ih =>
      intro acc h1 h2
      rw [List.foldl_cons]
      refine ih _ ⟨?_, ?_⟩ ⟨?_, ?_⟩
      · exact keysNodup_bucketRange _ _ h1.1
      · intro k hk
        rcases mem_keys_bucketRange hk with h | h
        · exact h1.2 k h
        · exact Or.inr h
      · exact keysNodup_bucketRange _ _ h2.1
      · intro k hk
        rcases mem_keys_bucketRange hk with h | h
        · exact h2.2 k h
        · exact Or.inr h
  have hkeysE : JsMap.keys initOrgAcc.employeeRanges = employeeRangeOrder := by
    rw [initOrgAcc, JsMap.keys, List.map_map]
    exact List.map_id _
  have hkeysR : JsMap.keys initOrgAcc.revenueRanges = revenueRangeOrder := by
    rw [initOrgAcc, JsMap.keys, List.map_map]
    exact List.map_id _
  refine aux es initOrgAcc ⟨?_, ?_⟩ ⟨?_, ?_⟩
  · rw [keysNodup, hkeysE]
    decide
  · intro k hk
    rw [hkeysE] at hk
    exact Or.inl hk
  · rw [keysNodup, hkeysR]
    decide
  · intro k hk
    rw [hkeysR] at hk
    exact Or.inl hk

theorem rangeStatsOk_formatRanges (table : List String) (m : JsMap Nat)
    (hnd : keysNodup m)
    (hsub : ∀ k ∈ JsMap.keys m, k ∈ table ∨ k = "Unknown") :
    rangeStatsOk table (formatRanges table m) := by
  have hentries : formatRanges table m =
      jsStableSortBy cmpRangeOrder
        ((m.filter (fun p => decide (0 < p.2))).map
          (fun p => (⟨p.1, p.2, jsIndexOf table p.1⟩ : RangeEntry))) := rfl
  set entries := (m.filter (fun p => decide (0 < p.2))).map
    (fun p => (⟨p.1, p.2, jsIndexOf table p.1⟩ : RangeEntry)) with hentdef
  have hfact : ∀ x ∈ entries, (x.name ∈ table ∨ x.name = "Unknown") ∧
      0 < x.value ∧ x.order = jsIndexOf table x.name := by
    intro x hx
    rcases List.mem_map.mp hx with ⟨p, hp, rfl⟩
    have hpm : p ∈ m := List.mem_of_mem_filter hp
    have hpk : p.1 ∈ JsMap.keys m := List.mem_map_of_mem _ hpm
    have hpv : (0 : Nat) < p.2 := by simpa using List.of_mem_filter hp
    exact ⟨hsub p.1 hpk, hpv, rfl⟩
  have hnames : (entries.map RangeEntry.name).Nodup := by
    rw [hentdef, List.map_map]
    have hsubl : ((m.filter fun p => decide (0 < p.2)).map fun p => p.1).Nodup :=
      List.Nodup.sublist ((List.filter_sublist m).map _) hnd
    exact hsubl
  have hend : entries.Nodup := List.Nodup.of_map _ hnames
  have hinj : ∀ a ∈ entries, ∀ b ∈ entries, a.name = b.name → a = b :=
    fun a ha b hb h => List.inj_on_of_nodup_map hnames ha hb h
  have htot : ∀ a ∈ entries, ∀ b ∈ entries, a ≠ b →
      cmpRangeOrder a b ≤ 0 ∨ cmpRangeOrder b a ≤ 0 := by
    intro a ha b hb hab
    have hname : a.name ≠ b.name := fun h => hab (hinj a ha b hb h)
    simp only [cmpRangeOrder]
    by_cases hau : a.name = "Unknown" <;> by_cases hbu : b.name = "Unknown"
    · exact absurd (hau.trans hbu.symm) hname
    · right
      simp [hau, hbu]
    · left
      simp [hau, hbu]
    · simp only [hau, hbu, if_false]
      omega
  have htr : ∀ a ∈ entries, ∀ b ∈ entries, ∀ c ∈ entries,
      cmpRangeOrder a b ≤ 0 → cmpRangeOrder b c ≤ 0 →
        cmpRangeOrder a c ≤ 0 := by
    intro a _ b _ c _ hab hbc
    simp only [cmpRangeOrder] at hab hbc ⊢
    by_cases hau : a.name = "Unknown" <;> by_cases hbu : b.name = "Unknown" <;>
      by_cases hcu : c.name = "Unknown" <;>
        simp only [hau, hbu, hcu, if_true, if_false] at hab hbc ⊢ <;> omega
  have hsorted := pairwise_jsStableSortBy_nodup cmpRangeOrder entries hend
    htot htr
  have hperm := jsStableSortBy_perm cmpRangeOrder entries
  have hsnd : (jsStableSortBy cmpRangeOrder entries).Nodup :=
    hperm.nodup_iff.mpr hend
  rw [rangeStatsOk, hentries]
  constructor
  · intro x hx
    exact hfact x (hperm.mem_iff.mp hx)
  · refine List.Pairwise.imp_of_mem ?_ (hsorted.and hsnd)
    intro a b ha hb hR
    obtain ⟨hab, hne⟩ := hR
    have hae : a ∈ entries := hperm.mem_iff.mp ha
    have hbe : b ∈ entries := hperm.mem_iff.mp hb
    have hfa := hfact a hae
    have hfb := hfact b hbe
    have hau : a.name ≠ "Unknown" := by
      intro hau
      rw [cmpRangeOrder, if_pos hau] at hab
      omega
    refine ⟨hau, ?_⟩
    by_cases hbu : b.name = "Unknown"
    · exact Or.inl hbu
    · right
      have hatab : a.name ∈ table := hfa.1.resolve_right hau
      have hbtab : b.name ∈ table := hfb.1.resolve_right hbu
      have hname : a.name ≠ b.name := fun h => hne (hinj a hae b hbe h)
      have hle : a.order ≤ b.order := by
        rw [cmpRangeOrder, if_neg hau, if_neg hbu] at hab
        omega
      have hneq : a.order ≠ b.order := by
        intro h
        refine hname (jsIndexOf_inj table a.name b.name hatab hbtab ?_)
        rw [← hfa.2.2, ← hfb.2.2, h]
      omega

/-- C6: whenever `processOrgStats` succeeds, every `employeeStats` entry
is one of the seven canonical employee ranges or `"Unknown"`, has a
positive count and carries its canonical table index; the canonical
buckets appear in strict table order and an `"Unknown"` bucket can only
be last, regardless of its count — and likewise for `revenueStats` over
the revenue table. -/
theorem C6_range_buckets_canonical (es : List Entity) (r : OrgStats)
    (h : processOrgStats es = .ok r) :
    rangeStatsOk employeeRangeOrder r.employeeStats ∧
    rangeStatsOk revenueRangeOrder r.revenueStats := by
  rcases processOrgStats_ok_elim es r h with ⟨-, rfl⟩
  rcases orgAccOf_inv es with ⟨⟨hnde, hsube⟩, ⟨hndr, hsubr⟩⟩
  exact ⟨rangeStatsOk_formatRanges employeeRangeOrder _ hnde hsube,
    rangeStatsOk_formatRanges revenueRangeOrder _ hndr hsubr⟩

/-- Witness for C6 at the concrete list `exRanges`. -/
theorem C6_range_buckets_canonical_witness :
    processOrgStats exRanges = .ok exRangesStats ∧
    rangeStatsOk employeeRangeOrder exRangesStats.employeeStats ∧
    rangeStatsOk revenueRangeOrder exRangesStats.revenueStats :=
  ⟨rfl, C6_range_buckets_canonical exRanges exRangesStats rfl⟩

/-! ### Attribution of country names and global city entries -/

